import Mathlib

/-!
Verification of the tau repository: a shallow embedding in Lean 4 of the
ANSI/width utilities (src/src/utils.rs), the reactor's timer and IO-source
tables (src/crates/tau-rt/src/reactor.rs), and the TUI differential renderer
and components (src/crates/tau-tui).  Strings are embedded at the level of
Unicode scalar values (Lean `Char`), which is faithful to the Rust byte-level
scanners here: every byte those scanners test for lies below 0x80, while the
bytes of a multi-byte UTF-8 character are all at least 0x80, so the byte walk
never splits or misclassifies a multi-byte character.
-/

/-- A string, embedded as its list of Unicode scalar values. -/
abbrev Str := List Char

/-- The ESC byte 0x1b (utils.rs: `const ESC: u8 = 0x1b`). -/
def ESC : Char := Char.ofNat 0x1b

/-- The BEL byte 0x07 (utils.rs: `const BEL: u8 = 0x07`). -/
def BEL : Char := Char.ofNat 0x07

/-- CSI parameter byte test, 0x30–0x3F (utils.rs `extract_csi`). -/
def isCsiParam (c : Char) : Bool := decide (0x30 ≤ c.toNat ∧ c.toNat ≤ 0x3F)

/-- CSI intermediate byte test, 0x20–0x2F (utils.rs `extract_csi`). -/
def isCsiInter (c : Char) : Bool := decide (0x20 ≤ c.toNat ∧ c.toNat ≤ 0x2F)

/-- CSI final byte test, 0x40–0x7E (utils.rs `extract_csi`). -/
def isCsiFinal (c : Char) : Bool := decide (0x40 ≤ c.toNat ∧ c.toNat ≤ 0x7E)

/-- utils.rs `extract_csi`, applied to the characters after the leading
`ESC [`.  Returns the full escape sequence together with the remaining
characters (the Rust function returns the sequence and its byte length; the
remainder is the input past that length). -/
def extractCsi (rest : Str) : Option (Str × Str) :=
  let params := rest.takeWhile isCsiParam
  let r1 := rest.dropWhile isCsiParam
  let inters := r1.takeWhile isCsiInter
  let r2 := r1.dropWhile isCsiInter
  match r2 with
  | [] => none
  | f :: r3 =>
    if isCsiFinal f then some (ESC :: '[' :: (params ++ inters ++ [f]), r3)
    else none

/-- utils.rs `extract_string_sequence` scan loop, applied to the characters
after the leading `ESC ]` or `ESC _`: consume up to and including a BEL or a
two-character `ESC \` terminator; an unterminated sequence yields none. -/
def extractStrSeqAux : Str → Option (Str × Str)
  | [] => none
  | c :: rest =>
    if c = BEL then some ([c], rest)
    else if c = ESC ∧ rest.head? = some '\\' then some ([ESC, '\\'], rest.tail)
    else (extractStrSeqAux rest).map (fun p => (c :: p.1, p.2))

/-- utils.rs `extract_ansi_code`, applied to the suffix of the string starting
at the probe position: if it begins with ESC followed by `[`, `]` or `_`,
extract the corresponding CSI / OSC / APC sequence; anything else yields none
(including a bare trailing ESC, which the Rust length check rejects). -/
def extract_ansi_code : Str → Option (Str × Str)
  | c1 :: c2 :: rest =>
    if c1 = ESC then
      if c2 = '[' then extractCsi rest
      else if c2 = ']' then (extractStrSeqAux rest).map (fun p => (ESC :: ']' :: p.1, p.2))
      else if c2 = '_' then (extractStrSeqAux rest).map (fun p => (ESC :: '_' :: p.1, p.2))
      else none
    else none
  | _ => none

theorem extractStrSeqAux_length : ∀ {l code rem : Str},
    extractStrSeqAux l = some (code, rem) → rem.length < l.length := by
  intro l
  induction l with
  | nil => intro code rem h; simp [extractStrSeqAux] at h
  | cons c rest ih =>
    intro code rem h
    unfold extractStrSeqAux at h
    split at h
    · simp only [Option.some.injEq, Prod.mk.injEq] at h
      obtain ⟨h1, h2⟩ := h
      subst h2
      simp
    · split at h
      · simp only [Option.some.injEq, Prod.mk.injEq] at h
        obtain ⟨h1, h2⟩ := h
        subst h2
        have ht : rest.tail.length = rest.length - 1 := List.length_tail rest
        simp only [List.length_cons]
        omega
      · simp only [Option.map_eq_some'] at h
        obtain ⟨p, hp, hpe⟩ := h
        have hlt := ih hp
        simp only [Prod.mk.injEq] at hpe
        obtain ⟨hc, hr⟩ := hpe
        subst hr
        simp only [List.length_cons]
        omega

theorem length_dropWhile_le (p : Char → Bool) (l : Str) :
    (l.dropWhile p).length ≤ l.length := by
  induction l with
  | nil => simp [List.dropWhile]
  | cons c rest ih =>
    simp only [List.dropWhile]
    split
    · simp only [List.length_cons]; omega
    · simp

theorem extractCsi_length {rest code r3 : Str}
    (h : extractCsi rest = some (code, r3)) : r3.length < rest.length + 2 := by
  unfold extractCsi at h
  simp only at h
  split at h
  · simp at h
  · rename_i f r3' heq
    split at h
    · simp only [Option.some.injEq, Prod.mk.injEq] at h
      obtain ⟨hc, hr⟩ := h
      subst hr
      have h1 := length_dropWhile_le isCsiParam rest
      have h2 := length_dropWhile_le isCsiInter (rest.dropWhile isCsiParam)
      rw [heq] at h2
      simp only [List.length_cons] at h2
      omega
    · simp at h

theorem extract_ansi_code_length : ∀ {l code rem : Str},
    extract_ansi_code l = some (code, rem) → rem.length < l.length := by
  intro l code rem h
  match l with
  | [] => simp [extract_ansi_code] at h
  | [c1] => simp [extract_ansi_code] at h
  | c1 :: c2 :: rest =>
    simp only [extract_ansi_code] at h
    split at h
    · split at h
      · have := extractCsi_length h
        simp only [List.length_cons]
        omega
      · split at h
        · rw [Option.map_eq_some'] at h
          obtain ⟨p, hp, hpe⟩ := h
          have := extractStrSeqAux_length hp
          have hr : rem = p.2 := by
            have := congrArg Prod.snd hpe
            simpa using this.symm
          subst hr
          simp only [List.length_cons]
          omega
        · split at h
          · rw [Option.map_eq_some'] at h
            obtain ⟨p, hp, hpe⟩ := h
            have := extractStrSeqAux_length hp
            have hr : rem = p.2 := by
              have := congrArg Prod.snd hpe
              simpa using this.symm
            subst hr
            simp only [List.length_cons]
            omega
          · simp at h
    · simp at h

/-- Loop body of utils.rs `strip_ansi`, with a structural fuel argument so
the kernel can evaluate it.  Every iteration consumes at least one character
(`extract_ansi_code_length`), so `s.length` units of fuel suffice; the
fuel-exhausted branch is never reached from `strip_ansi`. -/
def stripAnsiGo (fuel : Nat) (s : Str) : Str :=
  match fuel, s with
  | _, [] => []
  | 0, rest => rest
  | fuel + 1, c :: rest =>
    if c = ESC then
      match extract_ansi_code (c :: rest) with
      | some p => stripAnsiGo fuel p.2
      | none => c :: stripAnsiGo fuel rest
    else c :: stripAnsiGo fuel rest

/-- utils.rs `strip_ansi`: remove every recognized escape sequence, keeping
all other characters. -/
def strip_ansi (s : Str) : Str := stripAnsiGo s.length s

/-- Column width of one character.  Models the unicode-width crate
(`UnicodeWidthChar::width(c).unwrap_or(0)`, which is also what
`UnicodeWidthStr::width` contributes for a single-character slice): control
characters count 0, combining marks and zero-width joiners count 0, wide
East-Asian ranges count 2, everything else counts 1.  The wide ranges listed
cover the crate's table for the characters exercised in this development. -/
def charWidth (c : Char) : Nat :=
  let n := c.toNat
  if n < 0x20 ∨ (0x7F ≤ n ∧ n < 0xA0) then 0
  else if (0x300 ≤ n ∧ n ≤ 0x36F) ∨ n = 0x200B ∨ n = 0x200D then 0
  else if (0x1100 ≤ n ∧ n ≤ 0x115F) ∨ (0x2E80 ≤ n ∧ n ≤ 0x303E) ∨
          (0x3041 ≤ n ∧ n ≤ 0x33FF) ∨ (0x3400 ≤ n ∧ n ≤ 0x4DBF) ∨
          (0x4E00 ≤ n ∧ n ≤ 0x9FFF) ∨ (0xA000 ≤ n ∧ n ≤ 0xA4CF) ∨
          (0xAC00 ≤ n ∧ n ≤ 0xD7A3) ∨ (0xF900 ≤ n ∧ n ≤ 0xFAFF) ∨
          (0xFE30 ≤ n ∧ n ≤ 0xFE4F) ∨ (0xFF00 ≤ n ∧ n ≤ 0xFF60) ∨
          (0xFFE0 ≤ n ∧ n ≤ 0xFFE6) ∨ (0x20000 ≤ n ∧ n ≤ 0x3FFFD) then 2
  else 1

/-- utils.rs `visible_width`: strip escapes, then sum per-character widths
with TAB counted as exactly 3 columns. -/
def visible_width (s : Str) : Nat :=
  ((strip_ansi s).map (fun c => if c = '\t' then 3 else charWidth c)).sum

-- ── C6: strip_ansi idempotence / width invariance ──────────────────────

theorem stripAnsiGo_of_no_esc : ∀ (fuel : Nat) {s : Str},
    (∀ c ∈ s, c ≠ ESC) → stripAnsiGo fuel s = s := by
  intro fuel
  induction fuel with
  | zero =>
    intro s _
    match s with
    | [] => rfl
    | c :: rest => rfl
  | succ fuel ih =>
    intro s h
    match s with
    | [] => rfl
    | c :: rest =>
      have hc : c ≠ ESC := h c (List.mem_cons_self c rest)
      unfold stripAnsiGo
      simp only [hc, if_false]
      rw [ih (fun d hd => h d (List.mem_cons_of_mem c hd))]

/-- Helper: a string with no ESC character is left unchanged by
`strip_ansi`. -/
theorem strip_ansi_of_no_esc {s : Str} (h : ∀ c ∈ s, c ≠ ESC) :
    strip_ansi s = s :=
  stripAnsiGo_of_no_esc s.length h


/-- C6 counterexample: the claim fails on the string
`"\x1b\x1b[31m[0m"`.  The first pass treats the leading ESC as bare text
(the following byte is another ESC, not a sequence introducer), removes the
inner `ESC [ 3 1 m` sequence, and thereby glues the kept ESC onto the kept
`[0m`, creating a brand-new escape sequence: one pass yields `"\x1b[0m"`, a
second pass yields `""`, so stripping is not idempotent; and the visible
width of the input (3: the surviving `[`, `0`, `m`, with ESC counting 0)
differs from the visible width of its stripped form (0). -/
theorem c6_counterexample :
    ¬ (strip_ansi (strip_ansi [ESC, ESC, '[', '3', '1', 'm', '[', '0', 'm']) =
         strip_ansi [ESC, ESC, '[', '3', '1', 'm', '[', '0', 'm'] ∧
       visible_width [ESC, ESC, '[', '3', '1', 'm', '[', '0', 'm'] =
         visible_width (strip_ansi [ESC, ESC, '[', '3', '1', 'm', '[', '0', 'm'])) := by
  decide

/-- C6 (amended): for every string s whose stripped form contains no ESC
character — in particular whenever one stripping pass cannot manufacture a
new escape sequence out of leftovers — stripping is idempotent,
`strip_ansi (strip_ansi s) = strip_ansi s`, and the visible width of s
equals the visible width of its stripped form,
`visible_width s = visible_width (strip_ansi s)`. -/
theorem c6_strip_idempotent_width_invariant (s : Str)
    (h : ∀ c ∈ strip_ansi s, c ≠ ESC) :
    strip_ansi (strip_ansi s) = strip_ansi s ∧
    visible_width s = visible_width (strip_ansi s) := by
  have hid := strip_ansi_of_no_esc h
  refine ⟨hid, ?_⟩
  unfold visible_width
  rw [hid]

/-- Witness for C6 (amended), at the concrete string `"\x1b[31mhi"`. -/
theorem c6_witness :
    (∀ c ∈ strip_ansi [ESC, '[', '3', '1', 'm', 'h', 'i'], c ≠ ESC) ∧
    (strip_ansi (strip_ansi [ESC, '[', '3', '1', 'm', 'h', 'i']) =
       strip_ansi [ESC, '[', '3', '1', 'm', 'h', 'i'] ∧
     visible_width [ESC, '[', '3', '1', 'm', 'h', 'i'] =
       visible_width (strip_ansi [ESC, '[', '3', '1', 'm', 'h', 'i'])) :=
  ⟨by decide, c6_strip_idempotent_width_invariant _ (by decide)⟩

-- ── Reactor embedding (src/crates/tau-rt/src/reactor.rs) ───────────────

/-- A task waker, embedded as an opaque numeric token; `Waker::wake` has no
observable effect on reactor state, so only identity and invocation order
matter here. -/
abbrev Waker := Nat

/-- `std::task::Poll<()>`. -/
inductive Poll where
  | Ready : Poll
  | Pending : Poll
deriving DecidableEq, Repr

/-- reactor.rs `Source`: an IO source registered with the reactor. -/
structure Source where
  raw_fd : Int
  key : Nat
  registered : Bool
  read_waker : Option Waker
  write_waker : Option Waker
  read_ready : Bool
  write_ready : Bool
deriving DecidableEq, Repr

/-- Lookup in a finite map embedded as an association list (the reactor's
`HashMap<u64, Instant>`; instants are nanosecond counts). -/
def mapLookup (k : Nat) (l : List (Nat × Nat)) : Option Nat :=
  (l.find? (fun p => p.1 == k)).map Prod.snd

/-- `HashMap::insert`: bind k to v, displacing any previous binding. -/
def mapInsert (k v : Nat) (l : List (Nat × Nat)) : List (Nat × Nat) :=
  (k, v) :: l.filter (fun p => p.1 != k)

/-- `HashMap::remove`: drop the binding of k, if any. -/
def mapRemove (k : Nat) (l : List (Nat × Nat)) : List (Nat × Nat) :=
  l.filter (fun p => p.1 != k)

/-- Strict lexicographic order on `(Instant, u64)` keys, the `Ord` instance
the reactor's `BTreeMap` sorts by. -/
def keyLt (a b : Nat × Nat) : Bool :=
  decide (a.1 < b.1 ∨ (a.1 = b.1 ∧ a.2 < b.2))

/-- `BTreeMap::insert` on the sorted-association-list embedding of
`BTreeMap<(Instant, u64), Waker>`: place the key at its ordered position,
displacing an equal key. -/
def btreeInsert (k : Nat × Nat) (v : Waker) :
    List ((Nat × Nat) × Waker) → List ((Nat × Nat) × Waker)
  | [] => [(k, v)]
  | (k', v') :: rest =>
    if keyLt k k' then (k, v) :: (k', v') :: rest
    else if k = k' then (k, v) :: rest
    else (k', v') :: btreeInsert k v rest

/-- `BTreeMap::remove`: drop the entry with exactly this key. -/
def btreeRemove (k : Nat × Nat) (l : List ((Nat × Nat) × Waker)) :
    List ((Nat × Nat) × Waker) :=
  l.filter (fun p => p.1 != k)

/-- reactor.rs `TimerState`: the ordered `(deadline, id) → waker` container
(kept sorted by `keyLt`, mirroring BTreeMap iteration order) and the
`id → deadline` map. -/
structure TimerState where
  heap : List ((Nat × Nat) × Waker)
  deadlines : List (Nat × Nat)
deriving DecidableEq, Repr

/-- reactor.rs `Reactor`: the slab of IO sources (association list keyed by
slot index), the timer tables, and the monotonic timer-id counter.  The OS
poller itself is external; its effects enter through explicit parameters
(`now`, the event list). -/
structure Reactor where
  sources : List (Nat × Source)
  timers : TimerState
  timer_id : Nat
deriving DecidableEq, Repr

/-- `Slab::get` / `contains`: find the source stored under a slot key. -/
def slabLookup (k : Nat) (l : List (Nat × Source)) : Option Source :=
  (l.find? (fun p => p.1 == k)).map Prod.snd

/-- Replace the source stored under an existing slot key
(`sources[key] = ...` / `get_mut` write-back). -/
def slabUpdate (k : Nat) (src : Source) (l : List (Nat × Source)) :
    List (Nat × Source) :=
  l.map (fun p => if p.1 == k then (k, src) else p)

/-- `Slab::remove`: drop the slot. -/
def slabRemove (k : Nat) (l : List (Nat × Source)) : List (Nat × Source) :=
  l.filter (fun p => p.1 != k)

/-- reactor.rs `Reactor::timer_create`: allocate the next monotonic id,
compute `deadline = now + nanos_from_now`, and insert into the id → deadline
map only; no waker is stored and the ordered container is untouched. -/
def timer_create (r : Reactor) (now nanos_from_now : Nat) : Nat × Reactor :=
  let id := r.timer_id
  let deadline := now + nanos_from_now
  (id, { r with
          timer_id := id + 1,
          timers := { r.timers with
                      deadlines := mapInsert id deadline r.timers.deadlines } })

/-- reactor.rs `Reactor::timer_cancel`: if the id is known, remove it from
both indexes; the stored waker (if any) is dropped, not woken. -/
def timer_cancel (r : Reactor) (id : Nat) : Reactor :=
  match mapLookup id r.timers.deadlines with
  | some deadline =>
    { r with timers := { heap := btreeRemove (deadline, id) r.timers.heap,
                         deadlines := mapRemove id r.timers.deadlines } }
  | none => r

/-- reactor.rs `Reactor::timer_poll`: unknown id → Ready (already fired or
cancelled); expired → remove from both indexes and Ready; otherwise
store/replace the waker in the ordered container and Pending. -/
def timer_poll (r : Reactor) (now id : Nat) (waker : Waker) : Poll × Reactor :=
  match mapLookup id r.timers.deadlines with
  | none => (Poll.Ready, r)
  | some deadline =>
    if deadline ≤ now then
      (Poll.Ready,
       { r with timers := { heap := btreeRemove (deadline, id) r.timers.heap,
                            deadlines := mapRemove id r.timers.deadlines } })
    else
      (Poll.Pending,
       { r with timers := { heap := btreeInsert (deadline, id) waker r.timers.heap,
                            deadlines := r.timers.deadlines } })

/-- reactor.rs `Reactor::io_deregister`: remove the source if the slot is
occupied; otherwise do nothing.  (The poller `delete` call is an external
effect whose errors the code ignores.) -/
def io_deregister (r : Reactor) (handle : Nat) : Reactor :=
  if (slabLookup handle r.sources).isSome then
    { r with sources := slabRemove handle r.sources }
  else r

/-- reactor.rs `Reactor::io_poll_readable`: the code indexes the slab with
`&mut sources[key]`, which aborts (slab's `Index` panics) when the slot is
vacant — embedded as `none`.  Otherwise: consume a set read latch and return
Ready, or store the waker, sync poller interest (`update_interest`, whose
observable state effect is setting `registered`), and return Pending. -/
def io_poll_readable (r : Reactor) (handle : Nat) (waker : Waker) :
    Option (Poll × Reactor) :=
  match slabLookup handle r.sources with
  | none => none
  | some src =>
    if src.read_ready then
      some (Poll.Ready,
        { r with sources := slabUpdate handle { src with read_ready := false } r.sources })
    else
      some (Poll.Pending,
        { r with sources :=
            slabUpdate handle ({ src with read_waker := some waker, registered := true }) r.sources })

/-- reactor.rs `Reactor::io_poll_writable`, symmetric to readable. -/
def io_poll_writable (r : Reactor) (handle : Nat) (waker : Waker) :
    Option (Poll × Reactor) :=
  match slabLookup handle r.sources with
  | none => none
  | some src =>
    if src.write_ready then
      some (Poll.Ready,
        { r with sources := slabUpdate handle { src with write_ready := false } r.sources })
    else
      some (Poll.Pending,
        { r with sources :=
            slabUpdate handle ({ src with write_waker := some waker, registered := true }) r.sources })

/-- Step 1 of reactor.rs `Reactor::react`: pop entries off the front of the
ordered container while their deadline is ≤ now (BTreeMap iterates keys in
ascending order, so `keys().next()` is the head of the sorted list and
removing it leaves the tail), collecting their wakers in pop order and
removing each id from the id map. -/
def drainExpired (now : Nat) :
    List ((Nat × Nat) × Waker) → List (Nat × Nat) →
    List Waker × List ((Nat × Nat) × Waker) × List (Nat × Nat)
  | [], dls => ([], [], dls)
  | ((k, w) :: rest), dls =>
    if k.1 ≤ now then
      let res := drainExpired now rest (mapRemove k.2 dls)
      (w :: res.1, res.2)
    else ([], (k, w) :: rest, dls)

/-- Step 4 of reactor.rs `Reactor::react`: for each OS event, look up the
source by key — silently skipping keys with no live entry — set the ready
latches for the reported directions and take (move out) the corresponding
wakers, pushing read then write waker per event onto the collected list. -/
def processEvents :
    List (Nat × Source) → List (Nat × Bool × Bool) →
    List Waker × List (Nat × Source)
  | sources, [] => ([], sources)
  | sources, (key, readable, writable) :: rest =>
    match slabLookup key sources with
    | none => processEvents sources rest
    | some src =>
      let wsR := if readable then src.read_waker.toList else []
      let srcR := if readable then { src with read_ready := true, read_waker := none } else src
      let wsW := if writable then srcR.write_waker.toList else []
      let srcW := if writable then { srcR with write_ready := true, write_waker := none } else srcR
      let res := processEvents (slabUpdate key srcW sources) rest
      (wsR ++ wsW ++ res.1, res.2)

/-- reactor.rs `Reactor::react`: drain expired timers into the waker vector,
then append the wakers taken for the OS events, waking everything in that
order.  Steps 2–3 (effective timeout and the poller wait) only talk to the
OS; the events the poller reports enter as the `events` parameter, and the
returned list is the waker invocation order of step 5. -/
def react (r : Reactor) (now : Nat) (events : List (Nat × Bool × Bool)) :
    List Waker × Reactor :=
  let t := drainExpired now r.timers.heap r.timers.deadlines
  let io := processEvents r.sources events
  (t.1 ++ io.1,
   { sources := io.2, timers := { heap := t.2.1, deadlines := t.2.2 },
     timer_id := r.timer_id })

-- ── Map and ordered-container lemmas ───────────────────────────────────

theorem mapLookup_eq_some_mem {k v : Nat} {l : List (Nat × Nat)}
    (h : mapLookup k l = some v) : (k, v) ∈ l := by
  unfold mapLookup at h
  rw [Option.map_eq_some'] at h
  obtain ⟨p, hfind, hsnd⟩ := h
  have hmem := List.mem_of_find?_eq_some hfind
  have hpred := List.find?_some hfind
  simp only [beq_iff_eq] at hpred
  have : p = (k, v) := by
    cases p
    simp_all
  rw [← this]
  exact hmem

theorem mapLookup_insert_self (k v : Nat) (l : List (Nat × Nat)) :
    mapLookup k (mapInsert k v l) = some v := by
  simp [mapLookup, mapInsert, List.find?]

theorem mapLookup_insert_ne {k k' : Nat} (v : Nat) (l : List (Nat × Nat))
    (h : k' ≠ k) : mapLookup k' (mapInsert k v l) = mapLookup k' l := by
  unfold mapLookup mapInsert
  rw [List.find?]
  have : ((k, v).1 == k') = false := by simp [Ne.symm h]
  rw [this]
  induction l with
  | nil => simp
  | cons p rest ih =>
    by_cases hp : p.1 = k
    · have h1 : (p.1 != k) = false := by simp [hp]
      have h2 : (p.1 == k') = false := by simp [hp, Ne.symm h]
      simp only [List.filter, h1, List.find?, h2]
      exact ih
    · have h1 : (p.1 != k) = true := by simp [hp]
      simp only [List.filter, h1, List.find?]
      cases hpk : (p.1 == k') with
      | true => rfl
      | false => exact ih

theorem mapLookup_remove_self (k : Nat) (l : List (Nat × Nat)) :
    mapLookup k (mapRemove k l) = none := by
  unfold mapLookup mapRemove
  induction l with
  | nil => simp
  | cons p rest ih =>
    by_cases hp : p.1 = k
    · have h1 : (p.1 != k) = false := by simp [hp]
      simp only [List.filter, h1]
      exact ih
    · have h1 : (p.1 != k) = true := by simp [hp]
      have h2 : (p.1 == k) = false := by simp [hp]
      simp only [List.filter, h1, List.find?, h2]
      exact ih

theorem mapLookup_remove_ne {k k' : Nat} (l : List (Nat × Nat))
    (h : k' ≠ k) : mapLookup k' (mapRemove k l) = mapLookup k' l := by
  unfold mapLookup mapRemove
  induction l with
  | nil => simp
  | cons p rest ih =>
    by_cases hp : p.1 = k
    · have h1 : (p.1 != k) = false := by simp [hp]
      have h2 : (p.1 == k') = false := by simp [hp, Ne.symm h]
      simp only [List.filter, h1, List.find?, h2]
      exact ih
    · have h1 : (p.1 != k) = true := by simp [hp]
      simp only [List.filter, h1, List.find?]
      cases hpk : (p.1 == k') with
      | true => rfl
      | false => exact ih

theorem mem_mapRemove {p : Nat × Nat} {k : Nat} {l : List (Nat × Nat)}
    (h : p ∈ mapRemove k l) : p ∈ l := by
  exact List.mem_of_mem_filter h

theorem mem_mapInsert {p : Nat × Nat} {k v : Nat} {l : List (Nat × Nat)}
    (h : p ∈ mapInsert k v l) : p = (k, v) ∨ p ∈ l := by
  unfold mapInsert at h
  rcases List.mem_cons.mp h with h | h
  · exact Or.inl h
  · exact Or.inr (List.mem_of_mem_filter h)

theorem mem_btreeRemove {e : (Nat × Nat) × Waker} {k : Nat × Nat}
    {l : List ((Nat × Nat) × Waker)} (h : e ∈ btreeRemove k l) :
    e ∈ l ∧ e.1 ≠ k := by
  refine ⟨List.mem_of_mem_filter h, ?_⟩
  have := List.of_mem_filter h
  simpa using this


theorem mem_btreeInsert {e : (Nat × Nat) × Waker} {k : Nat × Nat} {v : Waker}
    {l : List ((Nat × Nat) × Waker)} (h : e ∈ btreeInsert k v l) :
    e = (k, v) ∨ e ∈ l := by
  induction l with
  | nil => simpa [btreeInsert] using h
  | cons p rest ih =>
    unfold btreeInsert at h
    split at h
    · rcases List.mem_cons.mp h with h | h
      · exact Or.inl h
      · exact Or.inr h
    · split at h
      · rcases List.mem_cons.mp h with h | h
        · exact Or.inl h
        · exact Or.inr (List.mem_cons_of_mem p h)
      · rcases List.mem_cons.mp h with h | h
        · exact Or.inr (h ▸ List.mem_cons_self p rest)
        · rcases ih h with h | h
          · exact Or.inl h
          · exact Or.inr (List.mem_cons_of_mem p h)

theorem self_mem_btreeInsert (k : Nat × Nat) (v : Waker)
    (l : List ((Nat × Nat) × Waker)) : (k, v) ∈ btreeInsert k v l := by
  induction l with
  | nil => simp [btreeInsert]
  | cons p rest ih =>
    unfold btreeInsert
    split
    · exact List.mem_cons_self _ _
    · split
      · exact List.mem_cons_self _ _
      · exact List.mem_cons_of_mem p ih

theorem keyLt_irrefl (k : Nat × Nat) : keyLt k k = false := by
  simp only [keyLt, decide_eq_false_iff_not]
  omega

theorem keyLt_trans {a b c : Nat × Nat} (h1 : keyLt a b = true)
    (h2 : keyLt b c = true) : keyLt a c = true := by
  simp only [keyLt, decide_eq_true_eq] at *
  omega

theorem keyLt_of_not_keyLt_of_ne {a b : Nat × Nat}
    (h1 : ¬ keyLt a b = true) (h2 : a ≠ b) : keyLt b a = true := by
  rcases a with ⟨a1, a2⟩
  rcases b with ⟨b1, b2⟩
  simp only [keyLt, decide_eq_true_eq] at h1 ⊢
  have h2' : a1 ≠ b1 ∨ a2 ≠ b2 := by
    by_contra hc
    push_neg at hc
    exact h2 (by simp [hc.1, hc.2])
  omega

/-- The ordered container is sorted strictly by its `(deadline, id)` key —
the representation invariant of the `BTreeMap` embedding. -/
def HeapSorted (heap : List ((Nat × Nat) × Waker)) : Prop :=
  List.Pairwise (fun a b => keyLt a.1 b.1 = true) heap

theorem btreeInsert_sorted {heap : List ((Nat × Nat) × Waker)}
    (k : Nat × Nat) (v : Waker) (hs : HeapSorted heap) :
    HeapSorted (btreeInsert k v heap) := by
  induction heap with
  | nil => simp [btreeInsert, HeapSorted]
  | cons p rest ih =>
    rcases hs with _ | ⟨hp, hrest⟩
    unfold btreeInsert
    split
    · rename_i hlt
      refine List.Pairwise.cons ?_ (List.Pairwise.cons hp hrest)
      intro e he
      rcases List.mem_cons.mp he with he | he
      · rw [he]; exact hlt
      · exact keyLt_trans hlt (hp e he)
    · split
      · rename_i hnlt heq
        refine List.Pairwise.cons ?_ hrest
        intro e he
        rw [heq]
        exact hp e he
      · rename_i hnlt hne
        refine List.Pairwise.cons ?_ (ih hrest)
        intro e he
        rcases mem_btreeInsert he with he | he
        · rw [he]
          exact keyLt_of_not_keyLt_of_ne hnlt hne
        · exact hp e he

theorem btreeRemove_sorted {heap : List ((Nat × Nat) × Waker)}
    (k : Nat × Nat) (hs : HeapSorted heap) :
    HeapSorted (btreeRemove k heap) :=
  List.Pairwise.sublist (List.filter_sublist heap) hs

-- ── C1: the timer lockstep invariant ───────────────────────────────────

/-- The direction of the lockstep invariant that the code does maintain:
every `(deadline, id)` entry of the ordered container is backed by a
matching `id → deadline` binding in the map. -/
def HeapBacked (t : TimerState) : Prop :=
  ∀ e ∈ t.heap, mapLookup e.1.2 t.deadlines = some e.1.1

/-- All ids stored in either timer table were allocated by the monotonic
counter, hence are strictly below its current value. -/
def IdsFresh (r : Reactor) : Prop :=
  (∀ e ∈ r.timers.heap, e.1.2 < r.timer_id) ∧
  (∀ p ∈ r.timers.deadlines, p.1 < r.timer_id)

/-- Reactor timer-table well-formedness: sorted ordered container, fresh
ids, and heap entries backed by the id map. -/
def ReactorWF (r : Reactor) : Prop :=
  HeapSorted r.timers.heap ∧ IdsFresh r ∧ HeapBacked r.timers

/-- The full lockstep invariant exactly as the spec states it: every id in
the id-map has its `(deadline, id)` entry in the ordered container, and
every entry of the ordered container has its id in the id-map bound to that
deadline. -/
def TimerLockstep (t : TimerState) : Prop :=
  (∀ p ∈ t.deadlines, (p.2, p.1) ∈ t.heap.map Prod.fst) ∧
  (∀ e ∈ t.heap, mapLookup e.1.2 t.deadlines = some e.1.1)

instance (heap : List ((Nat × Nat) × Waker)) : Decidable (HeapSorted heap) := by
  unfold HeapSorted
  infer_instance

instance (t : TimerState) : Decidable (HeapBacked t) := by
  unfold HeapBacked
  infer_instance

instance (r : Reactor) : Decidable (IdsFresh r) := by
  unfold IdsFresh
  infer_instance

instance (r : Reactor) : Decidable (ReactorWF r) := by
  unfold ReactorWF
  infer_instance

instance (t : TimerState) : Decidable (TimerLockstep t) := by
  unfold TimerLockstep
  infer_instance

/-- Specification of the expired-timer drain loop: the remaining heap and
map shrink, remaining heap entries stay backed and sorted, every expired
entry's waker is collected, and every collected waker came from an expired
entry. -/
theorem drainExpired_spec (now : Nat) :
    ∀ (heap : List ((Nat × Nat) × Waker)) (dls : List (Nat × Nat)),
    HeapSorted heap →
    (∀ e ∈ heap, mapLookup e.1.2 dls = some e.1.1) →
    (∀ e ∈ (drainExpired now heap dls).2.1, e ∈ heap) ∧
    (∀ p ∈ (drainExpired now heap dls).2.2, p ∈ dls) ∧
    (∀ e ∈ (drainExpired now heap dls).2.1,
       mapLookup e.1.2 (drainExpired now heap dls).2.2 = some e.1.1) ∧
    HeapSorted (drainExpired now heap dls).2.1 ∧
    (∀ d i w, ((d, i), w) ∈ heap → d ≤ now → w ∈ (drainExpired now heap dls).1) ∧
    (∀ w ∈ (drainExpired now heap dls).1, ∃ d i, ((d, i), w) ∈ heap ∧ d ≤ now) := by
  intro heap
  induction heap with
  | nil =>
    intro dls _ hb
    refine ⟨by simp [drainExpired], by simp [drainExpired], by simp [drainExpired],
      by simp [drainExpired, HeapSorted], by simp, by simp [drainExpired]⟩
  | cons e rest ih =>
    intro dls hs hb
    obtain ⟨k, w⟩ := e
    rcases hs with _ | ⟨hhead, hrest⟩
    by_cases hnow : k.1 ≤ now
    · have hbrest : ∀ e ∈ rest, mapLookup e.1.2 (mapRemove k.2 dls) = some e.1.1 := by
        intro e he
        have hne : e.1.2 ≠ k.2 := by
          intro heq
          have h1 := hb e (List.mem_cons_of_mem _ he)
          have h2 := hb (k, w) (List.mem_cons_self _ _)
          dsimp only at h2
          rw [heq] at h1
          rw [h1] at h2
          have hinj : e.1.1 = k.1 := Option.some.inj h2
          have hk : e.1 = k := Prod.ext hinj heq
          have hlt := hhead e he
          rw [hk, keyLt_irrefl] at hlt
          exact Bool.noConfusion hlt
        exact (mapLookup_remove_ne dls hne).trans (hb e (List.mem_cons_of_mem _ he))
      have ihres := ih (mapRemove k.2 dls) hrest hbrest
      have hdrain : drainExpired now ((k, w) :: rest) dls =
          (w :: (drainExpired now rest (mapRemove k.2 dls)).1,
           (drainExpired now rest (mapRemove k.2 dls)).2) := by
        simp only [drainExpired]
        rw [if_pos hnow]
      rw [hdrain]
      obtain ⟨ih1, ih2, ih3, ih4, ih5, ih6⟩ := ihres
      refine ⟨?_, ?_, ih3, ih4, ?_, ?_⟩
      · intro e he
        exact List.mem_cons_of_mem _ (ih1 e he)
      · intro p hp
        exact mem_mapRemove (ih2 p hp)
      · intro d i w' hmem hd
        rcases List.mem_cons.mp hmem with hmem | hmem
        · have : w' = w := congrArg Prod.snd hmem
          rw [this]
          exact List.mem_cons_self _ _
        · exact List.mem_cons_of_mem _ (ih5 d i w' hmem hd)
      · intro w' hw
        rcases List.mem_cons.mp hw with hw | hw
        · exact ⟨k.1, k.2, by rw [hw]; simp, hnow⟩
        · obtain ⟨d, i, hmem, hd⟩ := ih6 w' hw
          exact ⟨d, i, List.mem_cons_of_mem _ hmem, hd⟩
    · have hdrain : drainExpired now ((k, w) :: rest) dls =
          ([], (k, w) :: rest, dls) := by
        simp only [drainExpired]
        rw [if_neg hnow]
      rw [hdrain]
      refine ⟨fun e he => he, fun p hp => hp, hb, List.Pairwise.cons hhead hrest, ?_, by simp⟩
      intro d i w' hmem hd
      exfalso
      rcases List.mem_cons.mp hmem with hmem | hmem
      · have : k.1 = d := by
          have := congrArg (fun x => x.1.1) hmem
          simpa using this.symm
        omega
      · have := hhead _ hmem
        simp only [keyLt, decide_eq_true_eq] at this
        omega

theorem wf_timer_create (r : Reactor) (now nanos : Nat) (h : ReactorWF r) :
    ReactorWF (timer_create r now nanos).2 := by
  obtain ⟨hs, ⟨hf1, hf2⟩, hb⟩ := h
  refine ⟨hs, ⟨?_, ?_⟩, ?_⟩
  · intro e he
    have := hf1 e he
    show e.1.2 < r.timer_id + 1
    omega
  · intro p hp
    rcases mem_mapInsert hp with hp | hp
    · show p.1 < r.timer_id + 1
      rw [hp]
      exact Nat.lt_succ_self _
    · have := hf2 p hp
      show p.1 < r.timer_id + 1
      omega
  · intro e he
    have hlt := hf1 e he
    have hne : e.1.2 ≠ r.timer_id := by omega
    show mapLookup e.1.2 (mapInsert r.timer_id (now + nanos) r.timers.deadlines) = some e.1.1
    rw [mapLookup_insert_ne _ _ hne]
    exact hb e he

theorem wf_timer_cancel (r : Reactor) (id : Nat) (h : ReactorWF r) :
    ReactorWF (timer_cancel r id) := by
  obtain ⟨hs, ⟨hf1, hf2⟩, hb⟩ := h
  unfold timer_cancel
  cases hm : mapLookup id r.timers.deadlines with
  | none => exact ⟨hs, ⟨hf1, hf2⟩, hb⟩
  | some d0 =>
    refine ⟨btreeRemove_sorted _ hs, ⟨?_, ?_⟩, ?_⟩
    · intro e he
      exact hf1 e (mem_btreeRemove he).1
    · intro p hp
      exact hf2 p (mem_mapRemove hp)
    · intro e he
      obtain ⟨hmem, hkey⟩ := mem_btreeRemove he
      by_cases hid : e.1.2 = id
      · exfalso
        have h1 := hb e hmem
        rw [hid, hm] at h1
        have : e.1.1 = d0 := Option.some.inj h1.symm
        exact hkey (Prod.ext this hid)
      · show mapLookup e.1.2 (mapRemove id r.timers.deadlines) = some e.1.1
        rw [mapLookup_remove_ne _ hid]
        exact hb e hmem

theorem wf_timer_poll (r : Reactor) (now id : Nat) (w : Waker) (h : ReactorWF r) :
    ReactorWF (timer_poll r now id w).2 := by
  obtain ⟨hs, ⟨hf1, hf2⟩, hb⟩ := h
  unfold timer_poll
  cases hm : mapLookup id r.timers.deadlines with
  | none => exact ⟨hs, ⟨hf1, hf2⟩, hb⟩
  | some d0 =>
    dsimp only
    by_cases hnow : d0 ≤ now
    · rw [if_pos hnow]
      refine ⟨btreeRemove_sorted _ hs, ⟨?_, ?_⟩, ?_⟩
      · intro e he
        exact hf1 e (mem_btreeRemove he).1
      · intro p hp
        exact hf2 p (mem_mapRemove hp)
      · intro e he
        obtain ⟨hmem, hkey⟩ := mem_btreeRemove he
        by_cases hid : e.1.2 = id
        · exfalso
          have h1 := hb e hmem
          rw [hid, hm] at h1
          have : e.1.1 = d0 := Option.some.inj h1.symm
          exact hkey (Prod.ext this hid)
        · show mapLookup e.1.2 (mapRemove id r.timers.deadlines) = some e.1.1
          rw [mapLookup_remove_ne _ hid]
          exact hb e hmem
    · rw [if_neg hnow]
      refine ⟨btreeInsert_sorted _ _ hs, ⟨?_, ?_⟩, ?_⟩
      · intro e he
        rcases mem_btreeInsert he with he | he
        · have hmem : (id, d0) ∈ r.timers.deadlines := mapLookup_eq_some_mem hm
          have := hf2 _ hmem
          rw [he]
          exact this
        · exact hf1 e he
      · exact hf2
      · intro e he
        rcases mem_btreeInsert he with he | he
        · rw [he]
          exact hm
        · exact hb e he

theorem wf_react (r : Reactor) (now : Nat) (events : List (Nat × Bool × Bool))
    (h : ReactorWF r) : ReactorWF (react r now events).2 := by
  obtain ⟨hs, ⟨hf1, hf2⟩, hb⟩ := h
  obtain ⟨d1, d2, d3, d4, _, _⟩ :=
    drainExpired_spec now r.timers.heap r.timers.deadlines hs hb
  exact ⟨d4, ⟨fun e he => hf1 e (d1 e he), fun p hp => hf2 p (d2 p hp)⟩, d3⟩

/-- C1 counterexample: starting from the empty reactor, `timer_create` with
duration 5 at time 0 installs id 0 in the id → deadline map but adds nothing
to the ordered container (the waker is stored only on the first
`timer_poll`), so the two timer indexes are NOT in lockstep in the state
observable after `timer_create` returns. -/
theorem c1_counterexample :
    ¬ TimerLockstep (timer_create ⟨[], ⟨[], []⟩, 0⟩ 0 5).2.timers := by
  decide

/-- C1 (amended): only one direction of the lockstep invariant holds at
every point outside a mutation: every `(deadline, id)` entry of the ordered
container has its id present in the id-map, bound to that very deadline
(`HeapBacked`, packaged with heap sortedness and id freshness in
`ReactorWF`), and this is preserved by every operation that touches the
timer tables — `timer_create`, `timer_cancel`, `timer_poll`, and `react`.
The converse direction fails precisely in the window between `timer_create`
returning and the first `timer_poll` of that id, when the id sits in the
id-map with no entry in the ordered container (see the counterexample). -/
theorem c1_lockstep_amended :
    (∀ r now nanos, ReactorWF r → ReactorWF (timer_create r now nanos).2) ∧
    (∀ r id, ReactorWF r → ReactorWF (timer_cancel r id)) ∧
    (∀ r now id w, ReactorWF r → ReactorWF (timer_poll r now id w).2) ∧
    (∀ r now events, ReactorWF r → ReactorWF (react r now events).2) :=
  ⟨fun r now nanos h => wf_timer_create r now nanos h,
   fun r id h => wf_timer_cancel r id h,
   fun r now id w h => wf_timer_poll r now id w h,
   fun r now events h => wf_react r now events h⟩

/-- Witness for C1 (amended): the preservation statements applied to the
empty reactor, whose well-formedness is checked by evaluation. -/
theorem c1_lockstep_witness :
    ReactorWF (⟨[], ⟨[], []⟩, 0⟩ : Reactor) ∧
    ReactorWF (timer_create ⟨[], ⟨[], []⟩, 0⟩ 3 7).2 ∧
    ReactorWF (timer_cancel ⟨[], ⟨[], []⟩, 0⟩ 0) ∧
    ReactorWF (timer_poll ⟨[], ⟨[], []⟩, 0⟩ 1 0 4).2 ∧
    ReactorWF (react ⟨[], ⟨[], []⟩, 0⟩ 2 []).2 :=
  ⟨by decide,
   c1_lockstep_amended.1 _ 3 7 (by decide),
   c1_lockstep_amended.2.1 _ 0 (by decide),
   c1_lockstep_amended.2.2.1 _ 1 0 4 (by decide),
   c1_lockstep_amended.2.2.2 _ 2 [] (by decide)⟩

-- ── C2: unknown handles ────────────────────────────────────────────────

/-- C2 counterexample: polling readability of a handle that was never issued
does not return Ready — `io_poll_readable` indexes the slab with
`&mut sources[key]`, whose `Index` implementation aborts on a vacant slot
(embedded as `none`), so the operation fails instead of being treated as
already-ready. -/
theorem c2_counterexample :
    io_poll_readable ⟨[], ⟨[], []⟩, 0⟩ 0 7 = none := by
  decide

/-- C2 (amended): unknown handles are tolerated by `io_deregister` and
`timer_cancel` (no-ops) and by `timer_poll` (returns Ready with the state
unchanged), but NOT by `io_poll_readable` / `io_poll_writable`, which abort
(slab index out of bounds, embedded as `none`) instead of returning Ready. -/
theorem c2_unknown_handle_amended (r : Reactor) (handle id now : Nat)
    (w w' : Waker) (hs : slabLookup handle r.sources = none)
    (ht : mapLookup id r.timers.deadlines = none) :
    io_deregister r handle = r ∧
    timer_cancel r id = r ∧
    timer_poll r now id w = (Poll.Ready, r) ∧
    io_poll_readable r handle w' = none ∧
    io_poll_writable r handle w' = none := by
  refine ⟨?_, ?_, ?_, ?_, ?_⟩
  · unfold io_deregister
    rw [hs]
    simp
  · unfold timer_cancel
    rw [ht]
  · unfold timer_poll
    rw [ht]
  · unfold io_poll_readable
    rw [hs]
  · unfold io_poll_writable
    rw [hs]

/-- Witness for C2 (amended) on the empty reactor with handle 3 and timer
id 9, both never issued. -/
theorem c2_unknown_handle_witness :
    io_deregister ⟨[], ⟨[], []⟩, 0⟩ 3 = ⟨[], ⟨[], []⟩, 0⟩ ∧
    timer_cancel ⟨[], ⟨[], []⟩, 0⟩ 9 = ⟨[], ⟨[], []⟩, 0⟩ ∧
    timer_poll ⟨[], ⟨[], []⟩, 0⟩ 2 9 1 = (Poll.Ready, ⟨[], ⟨[], []⟩, 0⟩) ∧
    io_poll_readable ⟨[], ⟨[], []⟩, 0⟩ 3 1 = none ∧
    io_poll_writable ⟨[], ⟨[], []⟩, 0⟩ 3 1 = none :=
  c2_unknown_handle_amended ⟨[], ⟨[], []⟩, 0⟩ 3 9 2 1 1 (by decide) (by decide)

-- ── C9: OS events whose key has no live source ─────────────────────────

/-- C9: during react's event-processing step, an OS event whose key has no
live entry in the source table is silently skipped — processing continues
exactly as if the event were absent (no failure, no waker invoked for that
key), and the source table comes through unchanged. -/
theorem c9_unknown_event_key_skipped (sources : List (Nat × Source))
    (key : Nat) (rd wr : Bool) (events : List (Nat × Bool × Bool))
    (h : slabLookup key sources = none) :
    processEvents sources ((key, rd, wr) :: events) =
      processEvents sources events ∧
    processEvents sources [(key, rd, wr)] = ([], sources) := by
  constructor
  · simp only [processEvents]
    rw [h]
  · simp only [processEvents]
    rw [h]

/-- Witness for C9: an event for key 5 against a table holding only key 0. -/
theorem c9_unknown_event_key_witness :
    processEvents [(0, ⟨4, 0, false, none, none, false, false⟩)]
        [(5, true, true), (0, false, false)] =
      processEvents [(0, ⟨4, 0, false, none, none, false, false⟩)]
        [(0, false, false)] ∧
    processEvents [(0, ⟨4, 0, false, none, none, false, false⟩)]
        [(5, true, true)] =
      ([], [(0, ⟨4, 0, false, none, none, false, false⟩)]) :=
  c9_unknown_event_key_skipped _ 5 true true [(0, false, false)] (by decide)

-- ── C3: timer lifecycle ────────────────────────────────────────────────

/-- C3: for a timer created with duration d (deadline = creation time + d):
polling strictly before the deadline returns Pending and leaves the timer
present in both indexes (id → deadline in the map and, after the poll stored
its waker, `(deadline, id)` in the ordered container); the poll at or after
the deadline returns Ready and removes it from both indexes, so it is absent
from the tables afterward; that removing Ready happens exactly once — a
further poll finds no entry, returns Ready as the already-fired case, and
leaves the state untouched. -/
theorem c3_timer_deadline_semantics (r : Reactor) (now₀ d : Nat)
    (hwf : ReactorWF r) :
    (∀ now₁ w₁, now₁ < now₀ + d →
      (timer_poll (timer_create r now₀ d).2 now₁ (timer_create r now₀ d).1 w₁).1 =
        Poll.Pending ∧
      mapLookup (timer_create r now₀ d).1
          (timer_poll (timer_create r now₀ d).2 now₁ (timer_create r now₀ d).1 w₁).2.timers.deadlines =
        some (now₀ + d) ∧
      ((now₀ + d, (timer_create r now₀ d).1), w₁) ∈
        (timer_poll (timer_create r now₀ d).2 now₁ (timer_create r now₀ d).1 w₁).2.timers.heap) ∧
    (∀ now₂ w₂, now₀ + d ≤ now₂ →
      (timer_poll (timer_create r now₀ d).2 now₂ (timer_create r now₀ d).1 w₂).1 =
        Poll.Ready ∧
      mapLookup (timer_create r now₀ d).1
          (timer_poll (timer_create r now₀ d).2 now₂ (timer_create r now₀ d).1 w₂).2.timers.deadlines =
        none ∧
      (∀ e ∈ (timer_poll (timer_create r now₀ d).2 now₂ (timer_create r now₀ d).1 w₂).2.timers.heap,
        e.1.2 ≠ (timer_create r now₀ d).1)) ∧
    (∀ now₁ w₁ now₂ w₂, now₁ < now₀ + d → now₀ + d ≤ now₂ →
      (timer_poll (timer_poll (timer_create r now₀ d).2 now₁ (timer_create r now₀ d).1 w₁).2
          now₂ (timer_create r now₀ d).1 w₂).1 = Poll.Ready ∧
      mapLookup (timer_create r now₀ d).1
          (timer_poll (timer_poll (timer_create r now₀ d).2 now₁ (timer_create r now₀ d).1 w₁).2
            now₂ (timer_create r now₀ d).1 w₂).2.timers.deadlines = none ∧
      (∀ e ∈ (timer_poll (timer_poll (timer_create r now₀ d).2 now₁ (timer_create r now₀ d).1 w₁).2
          now₂ (timer_create r now₀ d).1 w₂).2.timers.heap,
        e.1.2 ≠ (timer_create r now₀ d).1) ∧
      (∀ now₃ w₃,
        timer_poll
          (timer_poll (timer_poll (timer_create r now₀ d).2 now₁ (timer_create r now₀ d).1 w₁).2
            now₂ (timer_create r now₀ d).1 w₂).2 now₃ (timer_create r now₀ d).1 w₃ =
        (Poll.Ready,
          (timer_poll (timer_poll (timer_create r now₀ d).2 now₁ (timer_create r now₀ d).1 w₁).2
            now₂ (timer_create r now₀ d).1 w₂).2))) := by
  obtain ⟨hsorted, ⟨hf1, hf2⟩, hback⟩ := hwf
  have hlook₁ : mapLookup (timer_create r now₀ d).1
      (timer_create r now₀ d).2.timers.deadlines = some (now₀ + d) :=
    mapLookup_insert_self _ _ _
  have hheap₁ : (timer_create r now₀ d).2.timers.heap = r.timers.heap := rfl
  have hid : (timer_create r now₀ d).1 = r.timer_id := rfl
  have hpoll_early : ∀ now₁ w₁, now₁ < now₀ + d →
      timer_poll (timer_create r now₀ d).2 now₁ (timer_create r now₀ d).1 w₁ =
      (Poll.Pending,
       { (timer_create r now₀ d).2 with
         timers := { heap := btreeInsert (now₀ + d, (timer_create r now₀ d).1) w₁
                               (timer_create r now₀ d).2.timers.heap,
                     deadlines := (timer_create r now₀ d).2.timers.deadlines } }) := by
    intro now₁ w₁ hlt
    unfold timer_poll
    rw [hlook₁]
    dsimp only
    rw [if_neg (by omega)]
  have hpoll_late : ∀ now₂ w₂, now₀ + d ≤ now₂ →
      timer_poll (timer_create r now₀ d).2 now₂ (timer_create r now₀ d).1 w₂ =
      (Poll.Ready,
       { (timer_create r now₀ d).2 with
         timers := { heap := btreeRemove (now₀ + d, (timer_create r now₀ d).1)
                               (timer_create r now₀ d).2.timers.heap,
                     deadlines := mapRemove (timer_create r now₀ d).1
                               (timer_create r now₀ d).2.timers.deadlines } }) := by
    intro now₂ w₂ hle
    unfold timer_poll
    rw [hlook₁]
    dsimp only
    rw [if_pos hle]
  refine ⟨?_, ?_, ?_⟩
  · intro now₁ w₁ hlt
    rw [hpoll_early now₁ w₁ hlt]
    refine ⟨rfl, hlook₁, ?_⟩
    exact self_mem_btreeInsert _ _ _
  · intro now₂ w₂ hle
    rw [hpoll_late now₂ w₂ hle]
    refine ⟨rfl, mapLookup_remove_self _ _, ?_⟩
    intro e he
    have hmem := (mem_btreeRemove he).1
    rw [hheap₁] at hmem
    have := hf1 e hmem
    rw [hid]
    omega
  · intro now₁ w₁ now₂ w₂ hlt hle
    rw [hpoll_early now₁ w₁ hlt]
    have hlook₂ : mapLookup (timer_create r now₀ d).1
        (timer_create r now₀ d).2.timers.deadlines = some (now₀ + d) := hlook₁
    have hpoll₂ : timer_poll
        ({ (timer_create r now₀ d).2 with
           timers := { heap := btreeInsert (now₀ + d, (timer_create r now₀ d).1) w₁
                                 (timer_create r now₀ d).2.timers.heap,
                       deadlines := (timer_create r now₀ d).2.timers.deadlines } })
        now₂ (timer_create r now₀ d).1 w₂ =
        (Poll.Ready,
         { (timer_create r now₀ d).2 with
           timers := { heap := btreeRemove (now₀ + d, (timer_create r now₀ d).1)
                                 (btreeInsert (now₀ + d, (timer_create r now₀ d).1) w₁
                                   (timer_create r now₀ d).2.timers.heap),
                       deadlines := mapRemove (timer_create r now₀ d).1
                                 (timer_create r now₀ d).2.timers.deadlines } }) := by
      unfold timer_poll
      dsimp only
      rw [hlook₁]
      dsimp only
      rw [if_pos hle]
    rw [hpoll₂]
    refine ⟨rfl, mapLookup_remove_self _ _, ?_, ?_⟩
    · intro e he
      obtain ⟨hmem, hkey⟩ := mem_btreeRemove he
      rcases mem_btreeInsert hmem with hkw | hmem'
      · intro hcon
        apply hkey
        rw [hkw]
      · rw [hheap₁] at hmem'
        have := hf1 e hmem'
        rw [hid]
        omega
    · intro now₃ w₃
      unfold timer_poll
      dsimp only
      rw [mapLookup_remove_self]

/-- Witness for C3 at a concrete reactor: a timer of duration 10 created at
time 0 on the empty reactor, polled at times 4 (early) and 12 (late). -/
theorem c3_timer_deadline_witness :
    (timer_poll (timer_create ⟨[], ⟨[], []⟩, 0⟩ 0 10).2 4 0 7).1 = Poll.Pending ∧
    (timer_poll (timer_create ⟨[], ⟨[], []⟩, 0⟩ 0 10).2 12 0 7).1 = Poll.Ready :=
  ⟨((c3_timer_deadline_semantics ⟨[], ⟨[], []⟩, 0⟩ 0 10 (by decide)).1 4 7 (by decide)).1,
   ((c3_timer_deadline_semantics ⟨[], ⟨[], []⟩, 0⟩ 0 10 (by decide)).2.1 12 7 (by decide)).1⟩

-- ── C5: expired timers woken before poller events ──────────────────────

theorem processEvents_wakers_from_events :
    ∀ (events : List (Nat × Bool × Bool)) (sources : List (Nat × Source)),
    ∀ w ∈ (processEvents sources events).1, ∃ k rd wr, (k, rd, wr) ∈ events := by
  intro events
  induction events with
  | nil =>
    intro sources w hw
    simp [processEvents] at hw
  | cons ev rest ih =>
    intro sources w hw
    obtain ⟨key, rd, wr⟩ := ev
    simp only [processEvents] at hw
    cases hl : slabLookup key sources with
    | none =>
      rw [hl] at hw
      obtain ⟨k, rd', wr', hmem⟩ := ih sources w hw
      exact ⟨k, rd', wr', List.mem_cons_of_mem _ hmem⟩
    | some src =>
      rw [hl] at hw
      dsimp only at hw
      rcases List.mem_append.mp hw with hw | hw
      · rcases List.mem_append.mp hw with hw | hw
        · exact ⟨key, rd, wr, List.mem_cons_self _ _⟩
        · exact ⟨key, rd, wr, List.mem_cons_self _ _⟩
      · obtain ⟨k, rd', wr', hmem⟩ := ih _ w hw
        exact ⟨k, rd', wr', List.mem_cons_of_mem _ hmem⟩

/-- C5: within one `react` call, the waker invocation list is the expired
timer wakers followed by the wakers taken for poller events; every waker of
a timer whose deadline had passed on entry appears in the timer segment
(never among the poller-event wakers), so all of them are invoked before any
waker collected from poller events; the timer segment contains nothing but
wakers of expired timers, and the event segment only wakers taken while
processing the reported events. -/
theorem c5_expired_timers_first (r : Reactor) (now : Nat)
    (events : List (Nat × Bool × Bool)) (hs : HeapSorted r.timers.heap)
    (hb : HeapBacked r.timers) :
    (react r now events).1 =
      (drainExpired now r.timers.heap r.timers.deadlines).1 ++
      (processEvents r.sources events).1 ∧
    (∀ d i w, ((d, i), w) ∈ r.timers.heap → d ≤ now →
       w ∈ (drainExpired now r.timers.heap r.timers.deadlines).1) ∧
    (∀ w ∈ (drainExpired now r.timers.heap r.timers.deadlines).1,
       ∃ d i, ((d, i), w) ∈ r.timers.heap ∧ d ≤ now) ∧
    (∀ w ∈ (processEvents r.sources events).1,
       ∃ k rd wr, (k, rd, wr) ∈ events) := by
  obtain ⟨_, _, _, _, d5, d6⟩ :=
    drainExpired_spec now r.timers.heap r.timers.deadlines hs hb
  exact ⟨rfl, d5, d6, fun w hw => processEvents_wakers_from_events events r.sources w hw⟩

/-- Witness for C5: a reactor holding one expired timer (deadline 3, id 0)
and one readable source with a stored waker, reacting at time 5 to one
readable event. -/
theorem c5_expired_timers_witness :
    (react ⟨[(0, ⟨4, 0, true, some 11, none, false, false⟩)],
            ⟨[((3, 0), 7)], [(0, 3)]⟩, 1⟩ 5 [(0, true, false)]).1 =
      (drainExpired 5 [((3, 0), 7)] [(0, 3)]).1 ++
      (processEvents [(0, ⟨4, 0, true, some 11, none, false, false⟩)] [(0, true, false)]).1 :=
  (c5_expired_timers_first
    ⟨[(0, ⟨4, 0, true, some 11, none, false, false⟩)],
     ⟨[((3, 0), 7)], [(0, 3)]⟩, 1⟩ 5 [(0, true, false)]
    (by decide) (by decide)).1

-- ── Input component (src/crates/tau-tui/src/components/input.rs) ───────

/-- input.rs `char_col_width`: `UnicodeWidthChar::width(c).unwrap_or(0)`,
the same per-character column rule as `charWidth`. -/
def char_col_width (c : Char) : Nat := charWidth c

/-- input.rs `chars_col_width`: total column width of a character slice. -/
def chars_col_width (l : List Char) : Nat := (l.map char_col_width).sum

/-- The cursor cell width used by `compute_scroll`:
`char_col_width(chars[cursor]).max(1)` under the cursor, or 1 for the
virtual space cursor past the end of text. -/
def cursorColWidth (chars : List Char) (cursor : Nat) : Nat :=
  if h : cursor < chars.length then max (char_col_width (chars.get ⟨cursor, h⟩)) 1
  else 1

/-- The cursor glyph width as the spec words it: the actual column width of
the glyph under the cursor, or 1 for the virtual end-of-text cursor. -/
def cursorGlyphWidth (chars : List Char) (cursor : Nat) : Nat :=
  if h : cursor < chars.length then char_col_width (chars.get ⟨cursor, h⟩)
  else 1

/-- The scroll-right loop of input.rs `compute_scroll`, with structural fuel
(the loop increments `offset` toward `cursor`, so `cursor + 1` units
suffice; the fuel-exhausted branch returns the current offset exactly like
the loop's terminal `break`). -/
def scrollLoopGo (cursor available : Nat) (chars : List Char) :
    Nat → Nat → Nat
  | 0, offset => offset
  | fuel + 1, offset =>
    let cols_before := chars_col_width ((chars.take cursor).drop offset)
    let cursor_w := cursorColWidth chars cursor
    if cols_before + cursor_w ≤ available then offset
    else if offset < cursor then scrollLoopGo cursor available chars fuel (offset + 1)
    else offset

/-- input.rs `compute_scroll`: clamp the previous offset to the buffer,
scroll left if the cursor moved before the window, then scroll right until
the columns before the cursor plus the cursor cell fit in `available`. -/
def compute_scroll (cursor current_offset available : Nat)
    (chars : List Char) : Nat :=
  if available = 0 then 0
  else
    let offset := min current_offset chars.length
    let offset := if cursor < offset then cursor else offset
    scrollLoopGo cursor available chars (cursor + 1) offset

/-- The visible-end walk of input.rs `Input::render`: extend `visible_end`
from the scroll offset, accumulating column widths while they fit in
`available`.  Structural fuel (`chars.length` suffices: each step advances
the index, and the walk stops at the end of the buffer). -/
def visibleEndGo (chars : List Char) (available : Nat) :
    Nat → Nat → Nat → Nat × Nat
  | 0, ve, cols => (ve, cols)
  | fuel + 1, ve, cols =>
    if h : ve < chars.length then
      let w := char_col_width (chars.get ⟨ve, h⟩)
      if available < cols + w then (ve, cols)
      else visibleEndGo chars available fuel (ve + 1) (cols + w)
    else (ve, cols)

/-- input.rs `Input` state: buffer, character-index cursor, focus flag, and
the interior-mutable scroll offset.  The submit/escape callbacks are
external effects with no bearing on rendering and are omitted. -/
structure Input where
  buffer : Str
  cursor : Nat
  focused : Bool
  scroll_offset : Nat
deriving DecidableEq, Repr

/-- input.rs `Input::render` (Component impl): at width ≤ the 2-column
prompt return one line of that many spaces; otherwise compute the scroll
offset (written back to the `Cell`, returned here as the updated state),
walk the visible window, and build the prompt + text + inverse-video cursor
line padded to the full width. -/
def inputRender (inp : Input) (width : Nat) : List Str × Input :=
  let total_width := width
  if total_width ≤ 2 then ([List.replicate total_width ' '], inp)
  else
    let available := total_width - 2
    let chars := inp.buffer
    let scroll := compute_scroll inp.cursor inp.scroll_offset available chars
    let inp' := { inp with scroll_offset := scroll }
    let ve := visibleEndGo chars available chars.length scroll 0
    let visible_end := ve.1
    let vis_cols := ve.2
    let line : Str :=
      if inp.focused then
        let before := (chars.take inp.cursor).drop scroll
        let cursor_char : Str :=
          if h : inp.cursor < chars.length then [chars.get ⟨inp.cursor, h⟩] else [' ']
        let after_start := min (inp.cursor + 1) visible_end
        let after : Str :=
          if after_start < visible_end then (chars.take visible_end).drop after_start
          else []
        let cursor_extra := if chars.length ≤ inp.cursor then 1 else 0
        let content_cols := 2 + vis_cols + cursor_extra
        let pad := total_width - content_cols
        String.toList "> " ++ before ++ String.toList "\x1b[7m" ++ cursor_char ++
          String.toList "\x1b[27m" ++ after ++ List.replicate pad ' '
      else
        let visible_chars := (chars.take visible_end).drop scroll
        let pad := total_width - (2 + vis_cols)
        String.toList "> " ++ visible_chars ++ List.replicate pad ' '
    ([line], inp')

theorem scrollLoopGo_spec (cursor available : Nat) (chars : List Char)
    (hcw : cursorColWidth chars cursor ≤ available) :
    ∀ fuel offset, offset ≤ cursor → cursor - offset ≤ fuel →
    chars_col_width ((chars.take cursor).drop
        (scrollLoopGo cursor available chars fuel offset)) +
      cursorColWidth chars cursor ≤ available := by
  intro fuel
  induction fuel with
  | zero =>
    intro offset h1 h2
    have heq : offset = cursor := by omega
    subst heq
    have hdrop : (chars.take offset).drop offset = [] := by
      apply List.drop_eq_nil_of_le
      simp [List.length_take]
    simp only [scrollLoopGo, hdrop]
    simpa [chars_col_width] using hcw
  | succ fuel ih =>
    intro offset h1 h2
    simp only [scrollLoopGo]
    by_cases hfit : chars_col_width ((chars.take cursor).drop offset) +
        cursorColWidth chars cursor ≤ available
    · rw [if_pos hfit]
      exact hfit
    · rw [if_neg hfit]
      by_cases hoc : offset < cursor
      · rw [if_pos hoc]
        exact ih (offset + 1) (by omega) (by omega)
      · exfalso
        have heq : offset = cursor := by omega
        subst heq
        apply hfit
        have hdrop : (chars.take offset).drop offset = [] := by
          apply List.drop_eq_nil_of_le
          simp [List.length_take]
        rw [hdrop]
        simpa [chars_col_width] using hcw

theorem inputRender_scroll_offset (inp : Input) (w : Nat) (hw : 2 < w) :
    (inputRender inp w).2.scroll_offset =
    compute_scroll inp.cursor inp.scroll_offset (w - 2) inp.buffer := by
  unfold inputRender
  rw [if_neg (by omega : ¬ w ≤ 2)]

/-- C7 counterexample: an Input holding the single wide character `你`
(2 columns) with the cursor on it, rendered at width 3 (one available column
after the 2-column prompt): the scroll offset after render is 0 and the
cursor glyph cannot fit, so the claimed inequality
`cols(scroll..cursor) + cursor_glyph_width ≤ available` fails. -/
theorem c7_counterexample :
    ¬ (chars_col_width ((['你'].take 0).drop
          (inputRender ⟨['你'], 0, true, 0⟩ 3).2.scroll_offset) +
        cursorGlyphWidth ['你'] 0 ≤ 3 - 2) := by
  decide

/-- C7 (amended): for every Input state and width strictly above the
2-column prompt, whenever the cursor's own cell — `max(glyph width, 1)`, or
1 for the virtual end-of-text cursor — fits in the available columns, the
scroll offset after render keeps the columns before the cursor plus the
cursor cell within `width − 2`; in particular the claimed inequality with
the bare glyph width also holds.  The proviso is forced by the
counterexample: a 2-column glyph in a 1-column window cannot fit at any
scroll offset, and `compute_scroll` then parks the offset at the cursor. -/
theorem c7_scroll_keeps_cursor_visible (inp : Input) (w : Nat) (hw : 2 < w)
    (hcw : cursorColWidth inp.buffer inp.cursor ≤ w - 2) :
    chars_col_width ((inp.buffer.take inp.cursor).drop
        (inputRender inp w).2.scroll_offset) +
      cursorColWidth inp.buffer inp.cursor ≤ w - 2 ∧
    chars_col_width ((inp.buffer.take inp.cursor).drop
        (inputRender inp w).2.scroll_offset) +
      cursorGlyphWidth inp.buffer inp.cursor ≤ w - 2 := by
  have hglyph : cursorGlyphWidth inp.buffer inp.cursor ≤
      cursorColWidth inp.buffer inp.cursor := by
    unfold cursorGlyphWidth cursorColWidth
    split
    · exact Nat.le_max_left _ _
    · exact le_refl 1
  rw [inputRender_scroll_offset inp w hw]
  unfold compute_scroll
  rw [if_neg (by omega : ¬ w - 2 = 0)]
  dsimp only
  have hoff : (if inp.cursor < min inp.scroll_offset inp.buffer.length
        then inp.cursor
        else min inp.scroll_offset inp.buffer.length) ≤ inp.cursor := by
    split
    · exact le_refl _
    · rename_i hnot
      exact Nat.le_of_not_lt hnot
  have h1 := scrollLoopGo_spec inp.cursor (w - 2) inp.buffer hcw
    (inp.cursor + 1) _ hoff (by omega)
  exact ⟨h1, le_trans (Nat.add_le_add_left hglyph _) h1⟩

/-- Witness for C7 (amended): buffer `"abc"`, cursor at the end, width 5. -/
theorem c7_scroll_witness :
    chars_col_width ((['a', 'b', 'c'].take 3).drop
        (inputRender ⟨['a', 'b', 'c'], 3, true, 0⟩ 5).2.scroll_offset) +
      cursorColWidth ['a', 'b', 'c'] 3 ≤ 5 - 2 ∧
    chars_col_width ((['a', 'b', 'c'].take 3).drop
        (inputRender ⟨['a', 'b', 'c'], 3, true, 0⟩ 5).2.scroll_offset) +
      cursorGlyphWidth ['a', 'b', 'c'] 3 ≤ 5 - 2 :=
  c7_scroll_keeps_cursor_visible ⟨['a', 'b', 'c'], 3, true, 0⟩ 5
    (by decide) (by decide)

/-- C10: rendering an Input at a width no larger than the 2-column prompt
returns exactly one line of exactly `width` space characters — no prompt,
no buffer text, no cursor markup — and leaves the state untouched, so
rendering is total at degenerate widths. -/
theorem c10_narrow_width_spaces (inp : Input) (w : Nat) (hw : w ≤ 2) :
    inputRender inp w = ([List.replicate w ' '], inp) := by
  unfold inputRender
  rw [if_pos hw]

/-- Witness for C10 at width 2 with a non-trivial buffer. -/
theorem c10_narrow_width_witness :
    inputRender ⟨['h', 'i'], 1, true, 0⟩ 2 = ([[' ', ' ']], ⟨['h', 'i'], 1, true, 0⟩) :=
  c10_narrow_width_spaces ⟨['h', 'i'], 1, true, 0⟩ 2 (by decide)

-- ── SelectList component (src/crates/tau-tui/src/components/select_list.rs)

/-- select_list.rs `SelectItem`. -/
structure SelectItem where
  value : Str
  label : Str
  description : Option Str
deriving DecidableEq, Repr

/-- Models Rust `str::to_lowercase` by per-character lowercasing, adequate
for the case-insensitive prefix filter used here. -/
def toLowerStr (s : Str) : Str := s.map Char.toLower

/-- select_list.rs `SelectList` state.  The Enter/Escape callbacks are
external effects that do not change this state and are omitted. -/
structure SelectList where
  items : List SelectItem
  max_visible : Nat
  selected : Nat
  scroll_offset : Nat
  filter : Str
  filtered_indices : List Nat
deriving DecidableEq, Repr

/-- select_list.rs `SelectList::new`: all indices pass the empty filter,
`max_visible` is clamped to at least 1, selection and scroll start at 0. -/
def SelectList.new (items : List SelectItem) (max_visible : Nat) : SelectList :=
  ⟨items, max max_visible 1, 0, 0, [], List.range items.length⟩

/-- select_list.rs `SelectList::set_filter`: keep the indices of items whose
lowercased label starts with the lowercased query; reset selection and
scroll to 0. -/
def SelectList.set_filter (s : SelectList) (query : Str) : SelectList :=
  let query_lower := toLowerStr query
  let filtered :=
    (s.items.enum.filter
      (fun p => query_lower.isPrefixOf (toLowerStr p.2.label))).map Prod.fst
  { s with filter := query, filtered_indices := filtered,
           selected := 0, scroll_offset := 0 }

/-- select_list.rs `SelectList::ensure_visible`: pull the scroll offset up
to the selection, then push it down so the selection is inside the
`max_visible`-row window. -/
def SelectList.ensure_visible (s : SelectList) : SelectList :=
  let s := if s.selected < s.scroll_offset then { s with scroll_offset := s.selected } else s
  if s.scroll_offset + s.max_visible ≤ s.selected then
    { s with scroll_offset := s.selected - s.max_visible + 1 }
  else s

/-- select_list.rs `SelectList::move_up`: wrap from 0 to the bottom. -/
def SelectList.move_up (s : SelectList) : SelectList :=
  let count := s.filtered_indices.length
  if count = 0 then s
  else
    (if s.selected = 0 then { s with selected := count - 1 }
     else { s with selected := s.selected - 1 }).ensure_visible

/-- select_list.rs `SelectList::move_down`: wrap from the bottom to 0. -/
def SelectList.move_down (s : SelectList) : SelectList :=
  let count := s.filtered_indices.length
  if count = 0 then s
  else ({ s with selected := (s.selected + 1) % count }).ensure_visible

/-- The key events `SelectList::handle_input` distinguishes. -/
inductive SelectKey where
  | Up : SelectKey
  | Down : SelectKey
  | Enter : SelectKey
  | Esc : SelectKey
  | Other : SelectKey
deriving DecidableEq, Repr

/-- select_list.rs `SelectList::handle_input` (Component impl): Up/Down move
the selection; Enter and Escape only invoke the external callbacks, leaving
the list state unchanged; everything else is ignored. -/
def SelectList.handle_input (s : SelectList) (k : SelectKey) : SelectList :=
  match k with
  | SelectKey.Up => s.move_up
  | SelectKey.Down => s.move_down
  | _ => s

/-- The SelectList state invariant from the spec: `max_visible ≥ 1` (the
data-model bound the constructor enforces), the selection is in range when
the filtered set is non-empty, and the selection lies inside the scroll
window. -/
def SelInv (s : SelectList) : Prop :=
  1 ≤ s.max_visible ∧
  (0 < s.filtered_indices.length → s.selected < s.filtered_indices.length) ∧
  s.scroll_offset ≤ s.selected ∧
  s.selected < s.scroll_offset + s.max_visible

instance (s : SelectList) : Decidable (SelInv s) := by
  unfold SelInv
  infer_instance

theorem ensure_visible_spec (s : SelectList) (hmv : 1 ≤ s.max_visible) :
    s.ensure_visible.scroll_offset ≤ s.ensure_visible.selected ∧
    s.ensure_visible.selected <
      s.ensure_visible.scroll_offset + s.ensure_visible.max_visible ∧
    s.ensure_visible.selected = s.selected ∧
    s.ensure_visible.max_visible = s.max_visible ∧
    s.ensure_visible.filtered_indices = s.filtered_indices := by
  unfold SelectList.ensure_visible
  by_cases h1 : s.selected < s.scroll_offset
  · rw [if_pos h1]
    dsimp only
    rw [if_neg (by omega : ¬ s.selected + s.max_visible ≤ s.selected)]
    dsimp only
    exact ⟨le_refl _, by omega, rfl, rfl, rfl⟩
  · rw [if_neg h1]
    by_cases h2 : s.scroll_offset + s.max_visible ≤ s.selected
    · rw [if_pos h2]
      dsimp only
      exact ⟨by omega, by omega, rfl, rfl, rfl⟩
    · rw [if_neg h2]
      exact ⟨by omega, by omega, rfl, rfl, rfl⟩

theorem selinv_move_up (s : SelectList) (h : SelInv s) : SelInv s.move_up := by
  obtain ⟨hmv, hsel, hso, hsw⟩ := h
  unfold SelectList.move_up
  by_cases hc : s.filtered_indices.length = 0
  · rw [if_pos hc]
    exact ⟨hmv, hsel, hso, hsw⟩
  · rw [if_neg hc]
    by_cases h0 : s.selected = 0
    · rw [if_pos h0]
      have hes := ensure_visible_spec
        { s with selected := s.filtered_indices.length - 1 } hmv
      obtain ⟨e1, e2, e3, e4, e5⟩ := hes
      refine ⟨by rw [e4]; exact hmv, ?_, e1, e2⟩
      intro hpos
      rw [e3, e5]
      rw [e5] at hpos
      dsimp only at hpos ⊢
      omega
    · rw [if_neg h0]
      have hes := ensure_visible_spec { s with selected := s.selected - 1 } hmv
      obtain ⟨e1, e2, e3, e4, e5⟩ := hes
      refine ⟨by rw [e4]; exact hmv, ?_, e1, e2⟩
      intro hpos
      rw [e3, e5]
      rw [e5] at hpos
      dsimp only at hpos ⊢
      have := hsel hpos
      omega

theorem selinv_move_down (s : SelectList) (h : SelInv s) : SelInv s.move_down := by
  obtain ⟨hmv, hsel, hso, hsw⟩ := h
  unfold SelectList.move_down
  by_cases hc : s.filtered_indices.length = 0
  · rw [if_pos hc]
    exact ⟨hmv, hsel, hso, hsw⟩
  · rw [if_neg hc]
    have hes := ensure_visible_spec
      { s with selected := (s.selected + 1) % s.filtered_indices.length } hmv
    obtain ⟨e1, e2, e3, e4, e5⟩ := hes
    refine ⟨by rw [e4]; exact hmv, ?_, e1, e2⟩
    intro hpos
    rw [e3, e5]
    exact Nat.mod_lt _ (by omega)

/-- C8: every SelectList state transition — construction, `set_filter`, and
Up/Down key handling (with Enter/Escape and other keys leaving the state
unchanged) — preserves the state invariant: `max_visible ≥ 1`, selection in
range whenever the filtered set is non-empty, and
`scroll_offset ≤ selected < scroll_offset + max_visible`.  `render` borrows
the list immutably (`&self` with no interior mutability), so it cannot
change the state and preserves the invariant by construction. -/
theorem c8_selectlist_invariant :
    (∀ items mv, SelInv (SelectList.new items mv)) ∧
    (∀ (s : SelectList) q, 1 ≤ s.max_visible → SelInv (s.set_filter q)) ∧
    (∀ (s : SelectList) k, SelInv s → SelInv (s.handle_input k)) := by
  refine ⟨?_, ?_, ?_⟩
  · intro items mv
    unfold SelInv SelectList.new
    dsimp only
    have hm := Nat.le_max_right mv 1
    exact ⟨hm, fun h => h, le_refl 0, by omega⟩
  · intro s q hmv
    unfold SelInv SelectList.set_filter
    dsimp only
    exact ⟨hmv, fun h => h, le_refl 0, by omega⟩
  · intro s k h
    cases k with
    | Up => exact selinv_move_up s h
    | Down => exact selinv_move_down s h
    | Enter => exact h
    | Esc => exact h
    | Other => exact h

/-- Witness for C8 at a concrete two-item list: construction, filtering, and
an Up key press. -/
theorem c8_selectlist_witness :
    SelInv (SelectList.new [⟨['a'], ['a'], none⟩, ⟨['b'], ['b'], none⟩] 1) ∧
    SelInv ((SelectList.new [⟨['a'], ['a'], none⟩, ⟨['b'], ['b'], none⟩] 1).set_filter ['a']) ∧
    SelInv ((SelectList.new [⟨['a'], ['a'], none⟩, ⟨['b'], ['b'], none⟩] 1).handle_input SelectKey.Up) :=
  ⟨c8_selectlist_invariant.1 _ 1,
   c8_selectlist_invariant.2.1 _ ['a'] (by decide),
   c8_selectlist_invariant.2.2 _ SelectKey.Up (by decide)⟩

-- ── TUI engine (src/crates/tau-tui/src/tui.rs) ─────────────────────────

/-- Loop body of utils.rs `truncate_to_width`, with structural fuel (each
iteration consumes at least one character, so `s.length` suffices).
Grapheme clusters are modelled as single Unicode scalars; escape sequences
pass through without counting toward the width, and the walk stops before
the first cluster that would overflow the content budget. -/
def truncGo (budget : Nat) : Nat → Nat → Str → Str
  | _, _, [] => []
  | 0, _, _ => []
  | fuel + 1, cur, c :: rest =>
    if c = ESC then
      match extract_ansi_code (c :: rest) with
      | some p => p.1 ++ truncGo budget fuel cur p.2
      | none =>
        let gw := if c = '\t' then 3 else charWidth c
        if budget < cur + gw then [] else c :: truncGo budget fuel (cur + gw) rest
    else
      let gw := if c = '\t' then 3 else charWidth c
      if budget < cur + gw then [] else c :: truncGo budget fuel (cur + gw) rest

/-- utils.rs `truncate_to_width`: return the string unchanged when it fits,
otherwise a prefix fitting `max_width` minus the ellipsis width, with the
ellipsis appended when it itself fits. -/
def truncate_to_width (s : Str) (max_width : Nat) (ellipsis : Str) : Str :=
  if visible_width s ≤ max_width then s
  else
    let ellipsis_width := visible_width ellipsis
    let content_budget := max_width - ellipsis_width
    let result := truncGo content_budget s.length 0 s
    if ellipsis_width ≤ max_width then result ++ ellipsis else result

/-- Modelled from the spec: tau-tui's own utils module (the
`crate::utils::slice_from_column` that tui.rs imports) is not present under
src/.  Spec §4.1: return an (SGR-state prefix, remaining text) pair such
that their concatenation starts at visual column `col` and has visible
width `max(0, visible_columns(s) − col)`.  Escape sequences encountered
while skipping accumulate into the state prefix; structural fuel as in the
other scanners. -/
def sliceGo : Nat → Nat → Str → Str → Str × Str
  | _, _, sgr, [] => (sgr, [])
  | 0, _, sgr, rest => (sgr, rest)
  | fuel + 1, col, sgr, c :: rest =>
    if col = 0 then (sgr, c :: rest)
    else if c = ESC then
      match extract_ansi_code (c :: rest) with
      | some p => sliceGo fuel col (sgr ++ p.1) p.2
      | none => sliceGo fuel (col - (if c = '\t' then 3 else charWidth c)) sgr rest
    else sliceGo fuel (col - (if c = '\t' then 3 else charWidth c)) sgr rest

/-- Modelled from the spec: entry point of the missing `slice_from_column`
(see `sliceGo`). -/
def slice_from_column (s : Str) (col : Nat) : Str × Str :=
  sliceGo s.length col [] s

/-- tui.rs `Anchor`. -/
inductive Anchor where
  | Center : Anchor
  | TopLeft : Anchor
  | TopRight : Anchor
  | BottomLeft : Anchor
  | BottomRight : Anchor
deriving DecidableEq, Repr

/-- tui.rs `OverlayOptions` (u16 widths/heights and i16 offsets embedded as
Nat and Int). -/
structure OverlayOptions where
  width : Nat
  max_height : Option Nat
  anchor : Anchor
  offset_x : Int
  offset_y : Int

/-- tui.rs `calculate_overlay_position`: anchor arithmetic with saturating
subtraction, then signed offsets clamped at zero. -/
def calculate_overlay_position (options : OverlayOptions)
    (content_width content_height overlay_width overlay_height : Nat) :
    Nat × Nat :=
  let base : Nat × Nat :=
    match options.anchor with
    | Anchor.Center =>
      ((content_height - overlay_height) / 2, (content_width - overlay_width) / 2)
    | Anchor.TopLeft => (0, 0)
    | Anchor.TopRight => (0, content_width - overlay_width)
    | Anchor.BottomLeft => (content_height - overlay_height, 0)
    | Anchor.BottomRight =>
      (content_height - overlay_height, content_width - overlay_width)
  let row := (max ((base.1 : Int) + options.offset_y) 0).toNat
  let col := (max ((base.2 : Int) + options.offset_x) 0).toNat
  (row, col)

/-- tui.rs `splice_overlay_into_line`: base prefix truncated to `col`
columns, space padding up to `col`, SGR reset, the overlay line, another
reset, and the base suffix from `col + overlay_width` on (re-emitting the
base's SGR state). -/
def splice_overlay_into_line (base : Str) (col : Nat) (overlay : Str)
    (overlay_width : Nat) : Str :=
  let before := truncate_to_width base col []
  let before_width := visible_width before
  let pad := List.replicate (col - before_width) ' '
  let base_width := visible_width base
  let after_col := col + overlay_width
  let after : Str :=
    if after_col < base_width then
      (slice_from_column base after_col).1 ++ (slice_from_column base after_col).2
    else []
  before ++ pad ++ String.toList "\x1b[0m" ++ overlay ++
    String.toList "\x1b[0m" ++ after

/-- tui.rs `OverlayEntry`: the boxed component abstracted as its render
function, the positioning options, and the current value of the shared
hidden flag.  `saved_focus` belongs to key routing, not rendering. -/
structure OverlayEntry where
  component : Nat → List Str
  options : OverlayOptions
  hidden : Bool
  saved_focus : Option Nat

/-- tui.rs `TUI`: the root container abstracted as its render function
(`Container::render` concatenates the children's lines; any deterministic
component tree is some such function), the overlay stack, and the frame
state.  The terminal handle, event channels, focus index and quit flag are
event-loop machinery with no effect on `render`'s output and are omitted;
the terminal's size enters as the `width` parameter and the terminal write
is the returned byte string. -/
structure TUI where
  root : Nat → List Str
  overlays : List OverlayEntry
  previous_lines : List Str
  previous_width : Nat
  cursor_row : Nat
  hardware_cursor_row : Nat

/-- The overlay-compositing step of tui.rs `TUI::render` for one overlay:
skip hidden or zero-width/zero-height overlays, compute the position,
extend the base with empty lines as needed, and splice each overlay row
into the corresponding base line. -/
def applyOverlay (width : Nat) (lines : List Str) (ov : OverlayEntry) :
    List Str :=
  if ov.hidden then lines
  else
    let ov_width := min ov.options.width width
    if ov_width = 0 then lines
    else
      let ov_lines := ov.component ov_width
      let ov_lines :=
        match ov.options.max_height with
        | some mh => ov_lines.take mh
        | none => ov_lines
      let ov_height := ov_lines.length
      if ov_height = 0 then lines
      else
        let rc := calculate_overlay_position ov.options width lines.length
          ov_width ov_height
        let row := rc.1
        let col := rc.2
        let lines := lines ++ List.replicate (row + ov_height - lines.length) []
        ov_lines.enum.foldl
          (fun ls p =>
            ls.set (row + p.1)
              (splice_overlay_into_line ((ls.get? (row + p.1)).getD []) col
                p.2 ov_width))
          lines

/-- Base content plus composited visible overlays — the `lines` value that
tui.rs `TUI::render` diffs against the previous frame. -/
def computeLines (t : TUI) (width : Nat) : List Str :=
  t.overlays.foldl (applyOverlay width) (t.root width)

/-- The first/last-changed scan of tui.rs `TUI::render`: indices
`0 .. max(|old|, |new|)`, comparing optional lines (missing indices compare
as distinct). -/
def firstLastChanged (old new : List Str) : Option Nat × Option Nat :=
  (List.range (max old.length new.length)).foldl
    (fun fl i =>
      if old.get? i ≠ new.get? i then
        ((if fl.1.isNone then some i else fl.1), some i)
      else fl)
    (none, none)

/-- tui.rs `TUI::render`: first render writes everything, a width change
clears and redraws, otherwise only the span between the first and last
changed lines is rewritten; an unchanged frame writes nothing.  Any
non-empty buffer is wrapped in the DEC synchronized-output markers and
written once. -/
def render (t : TUI) (width : Nat) : Str × TUI :=
  let lines := computeLines t width
  let is_first_render := t.previous_width = 0
  let crlf := String.toList "\x1b[0m\r\n"
  if is_first_render then
    let buffer := lines.foldl (fun b line => b ++ line ++ crlf) []
    let output : Str :=
      if buffer = [] then []
      else String.toList "\x1b[?2026h" ++ buffer ++ String.toList "\x1b[?2026l"
    (output,
     { t with previous_lines := lines, previous_width := width,
              cursor_row := lines.length, hardware_cursor_row := lines.length })
  else if width ≠ t.previous_width then
    let buffer := String.toList "\x1b[3J\x1b[2J\x1b[H" ++
      lines.foldl (fun b line => b ++ line ++ crlf) []
    let output : Str :=
      if buffer = [] then []
      else String.toList "\x1b[?2026h" ++ buffer ++ String.toList "\x1b[?2026l"
    (output,
     { t with previous_lines := lines, previous_width := width,
              cursor_row := lines.length, hardware_cursor_row := lines.length })
  else
    match firstLastChanged t.previous_lines lines with
    | (some first, some last) =>
      let mv : Str :=
        if first < t.hardware_cursor_row then
          String.toList "\x1b[" ++ (Nat.repr (t.hardware_cursor_row - first)).toList ++ ['A']
        else if t.hardware_cursor_row < first then
          String.toList "\x1b[" ++ (Nat.repr (first - t.hardware_cursor_row)).toList ++ ['B']
        else []
      let seg := (List.range' first (last + 1 - first)).foldl
        (fun b i =>
          b ++ String.toList "\x1b[2K" ++
          (match lines.get? i with
           | some line => line ++ crlf
           | none => String.toList "\r\n"))
        []
      let buffer := mv ++ ['\r'] ++ seg
      let cursor_pos := last + 1
      let buffer2 :=
        if lines.length < cursor_pos then
          buffer ++ String.toList "\x1b[" ++
            (Nat.repr (cursor_pos - lines.length)).toList ++ ['A']
        else buffer
      let hw := if lines.length < cursor_pos then lines.length else cursor_pos
      let output : Str :=
        if buffer2 = [] then []
        else String.toList "\x1b[?2026h" ++ buffer2 ++ String.toList "\x1b[?2026l"
      (output,
       { t with previous_lines := lines, previous_width := width,
                cursor_row := lines.length, hardware_cursor_row := hw })
    | _ =>
      ([],
       { t with previous_lines := lines, previous_width := width,
                cursor_row := lines.length })

theorem render_fields (t : TUI) (w : Nat) :
    (render t w).2.root = t.root ∧
    (render t w).2.overlays = t.overlays ∧
    (render t w).2.previous_lines = computeLines t w ∧
    (render t w).2.previous_width = w := by
  unfold render
  dsimp only
  split
  · exact ⟨rfl, rfl, rfl, rfl⟩
  · split
    · exact ⟨rfl, rfl, rfl, rfl⟩
    · split
      · exact ⟨rfl, rfl, rfl, rfl⟩
      · exact ⟨rfl, rfl, rfl, rfl⟩

theorem firstLastChanged_self (l : List Str) :
    firstLastChanged l l = (none, none) := by
  unfold firstLastChanged
  suffices h : ∀ (r : List Nat) (acc : Option Nat × Option Nat),
      r.foldl (fun fl i =>
        if l.get? i ≠ l.get? i then
          ((if fl.1.isNone then some i else fl.1), some i)
        else fl) acc = acc by
    exact h _ _
  intro r
  induction r with
  | nil => intro acc; rfl
  | cons i rest ih =>
    intro acc
    rw [List.foldl_cons]
    rw [if_neg (by simp)]
    exact ih acc

theorem render_no_change (t : TUI) (w : Nat) (hw : w ≠ 0)
    (hpw : t.previous_width = w) (hpl : t.previous_lines = computeLines t w) :
    (render t w).1 = [] ∧
    (render t w).2.previous_lines = t.previous_lines ∧
    (render t w).2.previous_width = t.previous_width := by
  unfold render
  dsimp only
  rw [hpw, if_neg hw, if_neg (by simp : ¬ w ≠ w), hpl, firstLastChanged_self]
  exact ⟨rfl, rfl, rfl⟩

/-- C4 counterexample: the claim fails at terminal width 0, which the
renderer cannot distinguish from the first-render sentinel
`previous_width == 0` — every frame at width 0 takes the first-render
branch and rewrites all content, so a second render with no mutation still
writes bytes.  Concretely: a TUI whose root renders the single line `"x"`,
rendered twice at width 0, writes a non-empty byte string the second
time. -/
theorem c4_counterexample :
    (render (render ⟨fun _ => [['x']], [], [], 0, 0, 0⟩ 0).2 0).1 ≠ [] := by
  decide

/-- C4 (amended): for every TUI state and every terminal width other than 0
(width 0 coincides with the `previous_width == 0` first-render sentinel and
is redrawn in full each frame), rendering twice in succession with no
mutation of the component tree, overlays, or terminal size writes zero
bytes on the second call, and the second call leaves `previous_lines` and
`previous_width` exactly as the first call set them. -/
theorem c4_render_twice_writes_nothing (t : TUI) (w : Nat) (hw : w ≠ 0) :
    (render (render t w).2 w).1 = [] ∧
    (render (render t w).2 w).2.previous_lines = (render t w).2.previous_lines ∧
    (render (render t w).2 w).2.previous_width = (render t w).2.previous_width := by
  obtain ⟨hroot, hov, hpl, hpw⟩ := render_fields t w
  have hlines : computeLines (render t w).2 w = computeLines t w := by
    unfold computeLines
    rw [hroot, hov]
  exact render_no_change (render t w).2 w hw hpw (hpl.trans hlines.symm)

/-- Witness for C4 (amended) at width 4 on a one-line tree with a hidden
overlay on the stack. -/
theorem c4_render_twice_witness :
    (render (render ⟨fun _ => [['h', 'i']],
        [⟨fun _ => [['o']], ⟨1, none, Anchor.TopLeft, 0, 0⟩, true, none⟩],
        [], 0, 0, 0⟩ 4).2 4).1 = [] ∧
    (render (render ⟨fun _ => [['h', 'i']],
        [⟨fun _ => [['o']], ⟨1, none, Anchor.TopLeft, 0, 0⟩, true, none⟩],
        [], 0, 0, 0⟩ 4).2 4).2.previous_lines =
      (render ⟨fun _ => [['h', 'i']],
        [⟨fun _ => [['o']], ⟨1, none, Anchor.TopLeft, 0, 0⟩, true, none⟩],
        [], 0, 0, 0⟩ 4).2.previous_lines ∧
    (render (render ⟨fun _ => [['h', 'i']],
        [⟨fun _ => [['o']], ⟨1, none, Anchor.TopLeft, 0, 0⟩, true, none⟩],
        [], 0, 0, 0⟩ 4).2 4).2.previous_width =
      (render ⟨fun _ => [['h', 'i']],
        [⟨fun _ => [['o']], ⟨1, none, Anchor.TopLeft, 0, 0⟩, true, none⟩],
        [], 0, 0, 0⟩ 4).2.previous_width :=
  c4_render_twice_writes_nothing _ 4 (by decide)
